import Mathlib

/-!
Verification of the bug-butler SLA evaluation and trend-analysis core.

This file gives a shallow embedding, in Lean 4, of the functions of the
repository that the specification's claims are about:

* the domain model (`Bug`, `SLARule`, `Bucket`, `BucketGroup`) and its
  methods `Matches`, `Violates`, `AgeDays`, `AddToBucket`, `Sort`
  (internal/domain);
* the SLA evaluator `Evaluate` (internal/sla/evaluator.go);
* the trend analyzer `Analyze` with its helpers `countUnresolvedAtDate`,
  `countResolvedInMonth`, `calculateGoalTarget`, `buildPriorityBreakdown`
  (internal/stats/analyzer.go);
* the sprint helpers `ExtractAndFilterSprints` and `CalculateSprintStats`
  (internal/stats/analyzer.go).

Modelling conventions:

* Go `time.Time` instants are modelled as `Int` seconds since the Unix
  epoch, in UTC.  At this granularity the source's "last day of the month
  at 23:59:59" is exactly the final instant of the month.
* Go `float64` values (ages in days, story points, percentages) are
  modelled as exact rationals `ℚ`; `math.Round` (round half away from
  zero) is modelled by `goRound`.
* Go maps are modelled by association lists in first-insertion key order
  (values last-write-wins), or equivalently by a key list plus lookup
  functions; claims about map-based code are stated so that they do not
  depend on Go's randomized map iteration order.
* The Go standard regexp library is external to the repository; it is
  modelled by an oracle structure `RegexpLib` whose `compile` returns
  `none` exactly when the Go `regexp.Compile` would return an error.
-/

namespace BugButler

/-- An instant in time: seconds since the Unix epoch (UTC). -/
abbrev Instant := Int

/-- internal/domain: `Bug` represents a Jira issue (all fields of the
current version of the struct, including the sprint fields set by
`MapIssueToBug`). -/
structure Bug where
  Key : String
  Summary : String
  Priority : String
  Status : String
  IssueType : String
  Created : Instant
  Updated : Instant
  Resolution : String
  ResolutionDate : Option Instant
  SprintID : String
  SprintName : String
  StoryPoints : ℚ
  BaseURL : String
deriving DecidableEq, Repr

/-- internal/domain: `Age` — `time.Since(b.Updated)`, a duration in
seconds relative to the evaluation time `now` (the Go code reads the
wall clock; the embedding passes `now` explicitly). -/
def Bug.Age (b : Bug) (now : Instant) : Int :=
  now - b.Updated

/-- internal/domain: `AgeDays` — `b.Age().Hours() / 24`, in exact
rational arithmetic. -/
def Bug.AgeDays (b : Bug) (now : Instant) : ℚ :=
  (((b.Age now : ℚ)) / 3600) / 24

/-- internal/domain: `SLARule`. -/
structure SLARule where
  Name : String
  Priority : String
  Status : List String
  MaxAgeDays : ℚ
  BucketName : String
  Severity : Int
deriving DecidableEq, Repr

/-- internal/domain: `SLARule.Matches` — priority must match when the
rule has one, and the bug's status must be one of the rule's statuses
when the rule lists any. -/
def SLARule.Matches (r : SLARule) (bug : Bug) : Bool :=
  if r.Priority ≠ "" ∧ r.Priority ≠ bug.Priority then
    false
  else if r.Status.length > 0 ∧ ¬ (bug.Status ∈ r.Status) then
    false
  else
    true

/-- internal/domain: `SLARule.Violates` — matches the criteria and the
age strictly exceeds the threshold. -/
def SLARule.Violates (r : SLARule) (bug : Bug) (now : Instant) : Bool :=
  r.Matches bug && decide (bug.AgeDays now > r.MaxAgeDays)

/-- internal/domain: `Bucket`. -/
structure Bucket where
  Name : String
  Severity : Int
  Bugs : List Bug
deriving DecidableEq, Repr

/-- internal/domain: `BucketGroup`. -/
structure BucketGroup where
  Buckets : List Bucket
deriving DecidableEq, Repr

/-- internal/domain: `AddToBucket` on the bucket list — append the bug
to the first bucket with the given name, or create a new bucket at the
end of the list when none exists. -/
def addToBucketList : List Bucket → String → Int → Bug → List Bucket
  | [], nm, sev, bug => [⟨nm, sev, [bug]⟩]
  | bk :: rest, nm, sev, bug =>
    if bk.Name = nm then
      ⟨bk.Name, bk.Severity, bk.Bugs ++ [bug]⟩ :: rest
    else
      bk :: addToBucketList rest nm sev bug

/-- internal/domain: `BucketGroup.AddToBucket`. -/
def BucketGroup.AddToBucket (bg : BucketGroup) (nm : String) (sev : Int) (bug : Bug) : BucketGroup :=
  ⟨addToBucketList bg.Buckets nm sev bug⟩

/-- internal/domain: the inner loop of `BucketGroup.Sort`'s bubble sort:
`bubbleStep k l` performs `k` adjacent compare-and-swap steps from the
head of the list, swapping when the left severity is strictly greater
(`Buckets[j].Severity > Buckets[j+1].Severity`). -/
def bubbleStep : Nat → List Bucket → List Bucket
  | 0, l => l
  | _ + 1, [] => []
  | _ + 1, [b] => [b]
  | k + 1, b1 :: b2 :: rest =>
    if b2.Severity < b1.Severity then
      b2 :: bubbleStep k (b1 :: rest)
    else
      b1 :: bubbleStep k (b2 :: rest)

/-- internal/domain: the outer loop of `BucketGroup.Sort`'s bubble sort.
The Go loop runs `i = 0 .. n-2` with the inner loop doing `n-1-i`
compare-and-swaps; `bubbleAux k` runs the passes with bounds
`k, k-1, ..., 1`. -/
def bubbleAux : Nat → List Bucket → List Bucket
  | 0, l => l
  | k + 1, l => bubbleAux k (bubbleStep (k + 1) l)

/-- internal/domain: `BucketGroup.Sort` — bubble sort ascending by
severity. -/
def BucketGroup.Sort (bg : BucketGroup) : BucketGroup :=
  ⟨bubbleAux (bg.Buckets.length - 1) bg.Buckets⟩

/-- internal/sla/evaluator.go: the inner rule-scanning loop of
`Evaluator.Evaluate` for a single bug.  The scan tries rules in order;
when a rule matches and violates, the bug is added to that rule's bucket
and the scan stops (`break`); when a rule matches but does not violate,
or does not match, the scan continues with the next rule. -/
def evalBugRules (rules : List SLARule) (now : Instant) (bg : BucketGroup) (bug : Bug) : BucketGroup :=
  match rules with
  | [] => bg
  | r :: rest =>
    if r.Matches bug then
      if r.Violates bug now then
        bg.AddToBucket r.BucketName r.Severity bug
      else
        evalBugRules rest now bg bug
    else
      evalBugRules rest now bg bug

/-- internal/sla/evaluator.go: `Evaluator.Evaluate` — process each bug
through the rule scan, then sort the buckets by severity. -/
def Evaluate (rules : List SLARule) (now : Instant) (bugs : List Bug) : BucketGroup :=
  BucketGroup.Sort (bugs.foldl (fun bg bug => evalBugRules rules now bg bug) ⟨[]⟩)

/-!
Calendar arithmetic.  Go's `time.Date(y, m, d, hh, mm, ss, 0, time.UTC)`
normalizes the month into the year and the day into the month and maps
the civil date to an absolute instant; `Year()`/`Month()` invert this.
The embedding uses the standard proleptic-Gregorian civil-from-days and
days-from-civil conversions.  A calendar month is identified by its
month key `year * 12 + (month - 1)`, so that the month `AddDate(-1,0,0)`
(same month, previous year) is `key - 12` and the month after key `k` is
`k + 1`.  (`Int./` is Euclidean division, which is floor division for
the positive divisors used here.)
-/

/-- Days since the epoch (1970-01-01) of the civil date `(y, m, d)`,
with `m` in `1..12`; `d` may be out of range and is added linearly, as
in Go's `time.Date` (so `d = 0` is the last day of the previous month). -/
def daysFromCivil (y m d : Int) : Int :=
  let y' := y - (if m ≤ 2 then 1 else 0)
  let era := y' / 400
  let yoe := y' - era * 400
  let mp := m + (if m > 2 then -3 else 9)
  let doy := (153 * mp + 2) / 5 + d - 1
  let doe := yoe * 365 + yoe / 4 - yoe / 100 + doy
  era * 146097 + doe - 719468

/-- Civil year and month of the day `z` (days since the epoch). -/
def civilYM (z : Int) : Int × Int :=
  let z' := z + 719468
  let era := z' / 146097
  let doe := z' - era * 146097
  let yoe := (doe - doe / 1460 + doe / 36524 - doe / 146096) / 365
  let y := yoe + era * 400
  let doy := doe - (365 * yoe + yoe / 4 - yoe / 100)
  let mp := (5 * doy + 2) / 153
  let m := mp + (if mp < 10 then 3 else -9)
  (y + (if m ≤ 2 then 1 else 0), m)

/-- Month key (`year * 12 + month - 1`) of the month containing an
instant, as computed by Go's `Year()` and `Month()` in UTC. -/
def monthKeyOfInstant (t : Instant) : Int :=
  let ym := civilYM (t / 86400)
  ym.1 * 12 + (ym.2 - 1)

/-- First instant of the month with key `k`; the value Go stores as the
month (`time.Date(year, month, 1, 0, 0, 0, 0, time.UTC)`). -/
def monthStart (k : Int) : Instant :=
  86400 * daysFromCivil (k / 12) (k % 12 + 1) 1

/-- internal/stats/analyzer.go: the "end of month" instant
`time.Date(year, month+1, 0, 23, 59, 59, 0, time.UTC)` — the last day
of month `k` at 23:59:59, which at second granularity is one second
before the first instant of month `k + 1`. -/
def monthEnd (k : Int) : Instant :=
  monthStart (k + 1) - 1

/-- Go's `math.Round`: round half away from zero, on exact rationals. -/
def goRound (x : ℚ) : Int :=
  if 0 ≤ x then ⌊x + 1 / 2⌋ else ⌈x - 1 / 2⌉

/-- internal/stats/analyzer.go: `Analyzer` configuration. -/
structure Analyzer where
  reductionGoal : ℚ
  monthsToAnalyze : Int

/-- internal/stats/analyzer.go: `calculateGoalTarget` — reduce last
year's count by the percentage and round. -/
def calculateGoalTarget (lastYearCount : Nat) (reductionPercent : ℚ) : Int :=
  let reduction := (lastYearCount : ℚ) * (reductionPercent / 100)
  let target := (lastYearCount : ℚ) - reduction
  goRound target

/-- internal/domain: `MonthlyBugStats`.  `Month` is the month key of
the first-of-month value the Go struct stores; `ByPriority` is the Go
map read as a total lookup function (absent key = 0). -/
structure MonthlyBugStats where
  Month : Int
  TotalCreated : Nat
  TotalResolved : Nat
  TotalUnresolved : Nat
  NetChange : Int
  ChangePercent : ℚ
  ByPriority : String → Nat

/-- internal/domain: `SprintStats`. -/
structure SprintStats where
  SprintID : String
  SprintName : String
  BugCount : Nat
  OtherCount : Nat
  TotalCount : Nat
  BugPercentage : ℚ
  BugStoryPoints : ℚ
  TotalStoryPoints : ℚ
  PointsPercentage : ℚ
deriving DecidableEq, Repr

/-- internal/domain: `TrendStats`.  The Go struct holds pointers into
`MonthlyData` for the current and prior-year months (nil when absent),
modelled as `Option`. -/
structure TrendStats where
  MonthlyData : List MonthlyBugStats
  CurrentMonth : Option MonthlyBugStats
  LastYearSameMonth : Option MonthlyBugStats
  ReductionGoal : ℚ
  GoalTarget : Int
  OnTrack : Bool
  SprintStats : List SprintStats

/-- internal/stats/analyzer.go: `groupByMonth` read at one key — the
bugs created in month `k`, in fetch order (Go appends to the map entry
in scan order). -/
def bugsCreatedInMonth (bugs : List Bug) (k : Int) : List Bug :=
  bugs.filter (fun b => monthKeyOfInstant b.Created == k)

/-- internal/stats/analyzer.go: the sorted list of distinct months in
`Analyze` — the keys of `groupByMonth` sorted ascending (Go collects
the map's distinct keys and sorts them with `Before`). -/
def monthKeys (bugs : List Bug) : List Int :=
  List.insertionSort (fun a b => a < b) ((bugs.map (fun b => monthKeyOfInstant b.Created)).dedup)

/-- internal/stats/analyzer.go: `buildPriorityBreakdown` — the priority
map of a month's created bugs, read as a lookup function. -/
def buildPriorityBreakdown (bugs : List Bug) : String → Nat :=
  fun p => (bugs.filter (fun b => b.Priority == p)).length

/-- internal/stats/analyzer.go: `countUnresolvedAtDate` — a bug counts
when `!bug.Created.After(date)` and (`bug.Resolution == ""` or
`bug.ResolutionDate != nil && bug.ResolutionDate.After(date)`). -/
def countUnresolvedAtDate (bugs : List Bug) (date : Instant) : Nat :=
  bugs.foldl
    (fun count bug =>
      if date < bug.Created then
        count
      else if bug.Resolution == "" ||
          (match bug.ResolutionDate with
           | some d => decide (date < d)
           | none => false) then
        count + 1
      else
        count)
    0

/-- internal/stats/analyzer.go: `countResolvedInMonth` — a bug counts
when its resolution date is present and within
`[monthStart k, monthEnd k]`. -/
def countResolvedInMonth (bugs : List Bug) (k : Int) : Nat :=
  bugs.foldl
    (fun count bug =>
      match bug.ResolutionDate with
      | some d =>
        if ¬ d < monthStart k ∧ ¬ monthEnd k < d then count + 1 else count
      | none => count)
    0

/-- internal/stats/analyzer.go: the per-month loop of `Analyze`,
threading `previousCreatedCount` through the chronologically sorted
month list. -/
def buildMonthly (bugs : List Bug) : List Int → Nat → List MonthlyBugStats
  | [], _ => []
  | k :: rest, prev =>
    let bugsThisMonth := bugsCreatedInMonth bugs k
    let created := bugsThisMonth.length
    let changePercent : ℚ :=
      if prev > 0 then (((created : ℚ) - (prev : ℚ)) / (prev : ℚ)) * 100 else 0
    { Month := k
      TotalCreated := created
      TotalResolved := countResolvedInMonth bugs k
      TotalUnresolved := countUnresolvedAtDate bugs (monthEnd k)
      NetChange := (created : Int) - (prev : Int)
      ChangePercent := changePercent
      ByPriority := buildPriorityBreakdown bugsThisMonth } :: buildMonthly bugs rest created

/-- internal/stats/analyzer.go: the reference-month search in `Analyze`
(the Go loop keeps the last entry whose `Month` equals the key). -/
def lastMonthMatch (data : List MonthlyBugStats) (k : Int) : Option MonthlyBugStats :=
  data.foldl (fun acc s => if s.Month == k then some s else acc) none

/-- internal/stats/analyzer.go: `Analyzer.Analyze`.  The Go method reads
the wall clock with `time.Now()`; the embedding passes `now`
explicitly. -/
def Analyzer.Analyze (a : Analyzer) (now : Instant) (bugs : List Bug) : TrendStats :=
  let monthlyData := buildMonthly bugs (monthKeys bugs) 0
  let currentKey := monthKeyOfInstant now
  let lastYearKey := currentKey - 12
  let currentMonth := lastMonthMatch monthlyData currentKey
  let lastYearSameMonth := lastMonthMatch monthlyData lastYearKey
  let goalTarget : Int :=
    match lastYearSameMonth, currentMonth with
    | some ly, some _ => calculateGoalTarget ly.TotalCreated a.reductionGoal
    | _, _ => 0
  let onTrack : Bool :=
    match lastYearSameMonth, currentMonth with
    | some _, some cm =>
      decide ((cm.TotalCreated : Int) ≤
        (match lastYearSameMonth, currentMonth with
         | some ly, some _ => calculateGoalTarget ly.TotalCreated a.reductionGoal
         | _, _ => 0))
    | _, _ => false
  { MonthlyData := monthlyData
    CurrentMonth := currentMonth
    LastYearSameMonth := lastYearSameMonth
    ReductionGoal := a.reductionGoal
    GoalTarget := goalTarget
    OnTrack := onTrack
    SprintStats := [] }

/-!
Sprint extraction and statistics (internal/stats/analyzer.go).  The Go
standard `regexp` package is external to the repository and is modelled
by the `RegexpLib` oracle: `compile` returns `none` exactly when
`regexp.Compile` returns an error (in which case both source functions
log and continue with `nameFilter = nil`, i.e. no filtering), and
`quoteMeta` models `regexp.QuoteMeta`.
-/

/-- Oracle model of the Go `regexp` package. -/
structure RegexpLib where
  compile : String → Option (String → Bool)
  quoteMeta : String → String

/-- internal/stats/analyzer.go: the shared name-filter setup of
`ExtractAndFilterSprints` and `CalculateSprintStats`: a regex pattern
takes precedence, else a quoted prefix pattern anchored with `^`; a
compilation error leaves the filter disabled (`none`). -/
def mkNameFilter (re : RegexpLib) (sprintNameBeginsWith sprintNamePattern : String) : Option (String → Bool) :=
  if sprintNamePattern ≠ "" then
    re.compile sprintNamePattern
  else if sprintNameBeginsWith ≠ "" then
    re.compile ("^" ++ re.quoteMeta sprintNameBeginsWith)
  else
    none

/-- internal/stats/analyzer.go: one step of building the `sprintMap` of
`ExtractAndFilterSprints` (`sprintMap[bug.SprintID] = bug.SprintName`
when the id is non-empty): update the value of an existing key, or
append a new entry. -/
def sprintMapInsert (m : List (String × String)) (b : Bug) : List (String × String) :=
  if b.SprintID ≠ "" then
    if m.any (fun p => p.1 == b.SprintID) then
      m.map (fun p => if p.1 == b.SprintID then (p.1, b.SprintName) else p)
    else
      m ++ [(b.SprintID, b.SprintName)]
  else
    m

/-- internal/stats/analyzer.go: the `sprintMap` of
`ExtractAndFilterSprints` (`ID → Name`), modelled as an association
list in first-insertion key order with last-write-wins values. -/
def buildSprintMap (bugs : List Bug) : List (String × String) :=
  bugs.foldl sprintMapInsert []

/-- internal/stats/analyzer.go: `ExtractAndFilterSprints` — collect the
distinct non-empty sprint ids, keeping an id when no name filter is
configured (or it failed to compile) or its sprint name matches. -/
def ExtractAndFilterSprints (re : RegexpLib) (bugs : List Bug)
    (sprintNameBeginsWith sprintNamePattern : String) : List String :=
  let sprintMap := buildSprintMap bugs
  let nameFilter := mkNameFilter re sprintNameBeginsWith sprintNamePattern
  sprintMap.foldl
    (fun acc p =>
      match nameFilter with
      | some f => if f p.2 then acc ++ [p.1] else acc
      | none => acc ++ [p.1])
    []

/-- internal/stats/analyzer.go: the issue filter of
`CalculateSprintStats`'s grouping loop: non-empty sprint id, and the
sprint name passes the filter when one is configured. -/
def sprintPass (nameFilter : Option (String → Bool)) (b : Bug) : Bool :=
  b.SprintID ≠ "" &&
    (match nameFilter with
     | some f => f b.SprintName
     | none => true)

/-- internal/stats/analyzer.go: the distinct keys of `sprintGroups`, in
first-encounter order. -/
def sprintKeys (nameFilter : Option (String → Bool)) (issues : List Bug) : List String :=
  ((issues.filter (sprintPass nameFilter)).map (fun b => b.SprintID)).dedup

/-- internal/stats/analyzer.go: `sprintGroups[id]` — the issues
appended for sprint `id`, in scan order. -/
def sprintGroup (nameFilter : Option (String → Bool)) (issues : List Bug) (id : String) : List Bug :=
  issues.filter (fun b => sprintPass nameFilter b && b.SprintID == id)

/-- internal/stats/analyzer.go: `sprintNames[id]` — the sprint name of
the last grouped issue of sprint `id` (each grouped issue overwrites
the entry). -/
def sprintNameFor (nameFilter : Option (String → Bool)) (issues : List Bug) (id : String) : String :=
  (((sprintGroup nameFilter issues id).map (fun b => b.SprintName)).getLast?).getD ""

/-- internal/stats/analyzer.go: one iteration of the per-sprint
accumulation loop of `CalculateSprintStats` over the accumulator
(bug count, other count, bug story points, total story points). -/
def sprintCountStep (acc : Nat × Nat × ℚ × ℚ) (issue : Bug) : Nat × Nat × ℚ × ℚ :=
  if issue.IssueType == "Bug" then
    (acc.1 + 1, acc.2.1, acc.2.2.1 + issue.StoryPoints, acc.2.2.2 + issue.StoryPoints)
  else
    (acc.1, acc.2.1 + 1, acc.2.2.1, acc.2.2.2 + issue.StoryPoints)

/-- internal/stats/analyzer.go: the per-sprint accumulation loop of
`CalculateSprintStats`. -/
def sprintCounts (issues : List Bug) : Nat × Nat × ℚ × ℚ :=
  issues.foldl sprintCountStep (0, 0, 0, 0)

/-- internal/stats/analyzer.go: the `SprintStats` record built for one
sprint group. -/
def mkSprintStat (id nm : String) (issues : List Bug) : SprintStats :=
  let c := sprintCounts issues
  let bugCount := c.1
  let otherCount := c.2.1
  let bugStoryPoints := c.2.2.1
  let totalStoryPoints := c.2.2.2
  let totalCount := bugCount + otherCount
  { SprintID := id
    SprintName := nm
    BugCount := bugCount
    OtherCount := otherCount
    TotalCount := totalCount
    BugPercentage := if totalCount > 0 then ((bugCount : ℚ) / (totalCount : ℚ)) * 100 else 0
    BugStoryPoints := bugStoryPoints
    TotalStoryPoints := totalStoryPoints
    PointsPercentage := if totalStoryPoints > 0 then (bugStoryPoints / totalStoryPoints) * 100 else 0 }

/-- internal/stats/analyzer.go: `Analyzer.CalculateSprintStats` — group
the issues by sprint (re-applying the name filter), build a
`SprintStats` per sprint, and sort ascending by sprint name
(`sort.Slice` with `SprintName <`, modelled by insertion sort). -/
def Analyzer.CalculateSprintStats (_ : Analyzer) (re : RegexpLib) (sprintIssues : List Bug)
    (sprintNameBeginsWith sprintNamePattern : String) : List SprintStats :=
  let nameFilter := mkNameFilter re sprintNameBeginsWith sprintNamePattern
  List.insertionSort (fun s t => s.SprintName < t.SprintName)
    ((sprintKeys nameFilter sprintIssues).map
      (fun id => mkSprintStat id (sprintNameFor nameFilter sprintIssues id)
        (sprintGroup nameFilter sprintIssues id)))

/-!
Specification-side definitions and concrete data used by the theorems
below.  `specUnresolvedCount` is written from the specification's words
(a refinement reference for the backlog claim); everything else is
counting/measuring helpers and concrete witness data.
-/

/-- Spec-side backlog count, following the specification's words:
"count of issues created on/before the month's final instant AND (no
resolution OR resolution timestamp strictly after that instant)". -/
def specUnresolvedCount (bugs : List Bug) (date : Instant) : Nat :=
  (bugs.filter (fun b =>
    decide (b.Created ≤ date) &&
      (b.Resolution == "" ||
        (match b.ResolutionDate with
         | some d => decide (date < d)
         | none => false)))).length

/-- Total number of occurrences of a bug across all buckets of a group. -/
def countBugInGroup (b : Bug) (bg : BucketGroup) : Nat :=
  (bg.Buckets.map (fun bk => bk.Bugs.count b)).sum

/-- A bug with the given timestamps, priority and status (remaining
fields defaulted), for concrete evaluations. -/
def mkBug (created updated : Instant) (priority status : String) : Bug :=
  { Key := "K", Summary := "S", Priority := priority, Status := status
    IssueType := "Bug", Created := created, Updated := updated
    Resolution := "", ResolutionDate := none, SprintID := "", SprintName := ""
    StoryPoints := 0, BaseURL := "" }

/-- A catch-all rule (no priority, no status filter) with a 10-day
threshold, bucket B1, severity 1. -/
def ruleCatchAll10 : SLARule := ⟨"r1", "", [], 10, "B1", 1⟩

/-- A catch-all rule with a 1-day threshold, bucket B2, severity 2. -/
def ruleCatchAll1 : SLARule := ⟨"r2", "", [], 1, "B2", 2⟩

/-- A bug whose age is exactly 5 days at instant 432000. -/
def bugAgeFive : Bug := mkBug 0 0 "Critical" "Backlog"

/-- Analyzer configured with a 20% reduction goal over 24 months. -/
def analyzerW : Analyzer := ⟨20, 24⟩

/-- A bug created at the epoch and resolved exactly at the final
instant of January 1970 (2678399 = monthEnd of that month). -/
def bugResolvedAtMonthEnd : Bug :=
  { Key := "K1", Summary := "S", Priority := "High", Status := "Done"
    IssueType := "Bug", Created := 0, Updated := 0
    Resolution := "Fixed", ResolutionDate := some 2678399
    SprintID := "", SprintName := "", StoryPoints := 0, BaseURL := "" }

/-- An unresolved bug created shortly after the epoch. -/
def bugUnresolvedW : Bug :=
  { Key := "K2", Summary := "S", Priority := "Low", Status := "Backlog"
    IssueType := "Bug", Created := 100, Updated := 100
    Resolution := "", ResolutionDate := none
    SprintID := "", SprintName := "", StoryPoints := 0, BaseURL := "" }

/-- Concrete two-bug history for the backlog witness. -/
def bugsBacklogW : List Bug := [bugResolvedAtMonthEnd, bugUnresolvedW]

/-- Concrete three-bug history spanning two months (one created in
January 1970, two in February 1970). -/
def bugsTwoMonthsW : List Bug :=
  [mkBug 0 0 "High" "Backlog", mkBug 2678500 2678500 "Low" "Backlog",
   mkBug 2678600 2678600 "Low" "Backlog"]

/-- A regexp oracle on which every pattern fails to compile. -/
def reNone : RegexpLib := ⟨fun _ => none, fun s => s⟩

/-- An issue of type Bug in sprint 10, worth 3 story points. -/
def issueBugW : Bug :=
  { Key := "K3", Summary := "S", Priority := "High", Status := "Done"
    IssueType := "Bug", Created := 0, Updated := 0
    Resolution := "", ResolutionDate := none
    SprintID := "10", SprintName := "TOOLS Sprint 1", StoryPoints := 3, BaseURL := "" }

/-- An issue of type Story in sprint 10, worth 1 story point. -/
def issueStoryW : Bug :=
  { Key := "K4", Summary := "S", Priority := "Low", Status := "Done"
    IssueType := "Story", Created := 0, Updated := 0
    Resolution := "", ResolutionDate := none
    SprintID := "10", SprintName := "TOOLS Sprint 1", StoryPoints := 1, BaseURL := "" }

/-- Concrete sprint issue list. -/
def issuesSprintW : List Bug := [issueBugW, issueStoryW]

/-!  Theorems.  -/

/-- C4: `Violates(rule, issue)` holds iff `Matches(rule, issue)` holds
and the issue's age in fractional days strictly exceeds
`rule.MaxAgeDays`; an issue whose age equals `MaxAgeDays` exactly never
violates. -/
theorem violates_iff_matches_and_strictly_older (r : SLARule) (b : Bug) (now : Instant) :
    (r.Violates b now = true ↔ (r.Matches b = true ∧ r.MaxAgeDays < b.AgeDays now)) ∧
    (b.AgeDays now = r.MaxAgeDays → r.Violates b now = false) := by
  constructor
  · simp [SLARule.Violates]
  · intro h
    simp [SLARule.Violates, h]

/-- The concrete bug `bugAgeFive` is exactly 5 days old at instant
432000. -/
theorem bugAgeFive_age_days : bugAgeFive.AgeDays 432000 = 5 := by
  norm_num [Bug.AgeDays, Bug.Age, bugAgeFive, mkBug]

/-- `ruleCatchAll10` matches the 5-day-old bug but is not violated
(5 ≤ 10). -/
theorem ruleCatchAll10_not_violated : ruleCatchAll10.Violates bugAgeFive 432000 = false := by
  simp [SLARule.Violates, bugAgeFive_age_days, ruleCatchAll10]
  norm_num

/-- `ruleCatchAll1` matches the 5-day-old bug and is violated
(5 > 1). -/
theorem ruleCatchAll1_violated : ruleCatchAll1.Violates bugAgeFive 432000 = true := by
  simp [SLARule.Violates, SLARule.Matches, ruleCatchAll1]
  rw [bugAgeFive_age_days]
  norm_num

/-- Witness for C4: a bug whose age at instant 86400 is exactly the
1-day threshold of `ruleCatchAll1` does not violate it. -/
theorem violates_iff_matches_and_strictly_older_witness :
    (bugAgeFive.AgeDays 86400 = ruleCatchAll1.MaxAgeDays) ∧
      ruleCatchAll1.Violates bugAgeFive 86400 = false :=
  ⟨by norm_num [Bug.AgeDays, Bug.Age, bugAgeFive, mkBug, ruleCatchAll1],
   (violates_iff_matches_and_strictly_older ruleCatchAll1 bugAgeFive 86400).2
     (by norm_num [Bug.AgeDays, Bug.Age, bugAgeFive, mkBug, ruleCatchAll1])⟩

/-- C1 counterexample: two catch-all rules, the first with a 10-day
threshold and the second with a 1-day threshold, applied to a bug aged
exactly 5 days.  The first rule in order matches but is not violated;
the claim says scanning stops and the issue is not added to any bucket,
but `Evaluate` continues scanning and buckets the issue under the
second rule's bucket B2. -/
theorem evaluate_matched_compliant_does_not_stop :
    ruleCatchAll10.Matches bugAgeFive = true ∧
    ruleCatchAll10.Violates bugAgeFive 432000 = false ∧
    ruleCatchAll1.Matches bugAgeFive = true ∧
    ruleCatchAll1.Violates bugAgeFive 432000 = true ∧
    (Evaluate [ruleCatchAll10, ruleCatchAll1] 432000 [bugAgeFive]).Buckets =
      [⟨"B2", 2, [bugAgeFive]⟩] := by
  have hm1 : ruleCatchAll10.Matches bugAgeFive = true := by decide
  have hm2 : ruleCatchAll1.Matches bugAgeFive = true := by decide
  have hb2 : ruleCatchAll1.BucketName = "B2" := rfl
  have hs2 : ruleCatchAll1.Severity = 2 := rfl
  refine ⟨hm1, ruleCatchAll10_not_violated, hm2, ruleCatchAll1_violated, ?_⟩
  simp [Evaluate, evalBugRules, ruleCatchAll10_not_violated, ruleCatchAll1_violated,
    hm1, hm2, hb2, hs2, BucketGroup.Sort, bubbleAux, bubbleStep,
    BucketGroup.AddToBucket, addToBucketList]

/-- C1 amended: in `Evaluate`'s per-issue rule scan, the first rule in
configured order that both matches and violates the issue determines
the issue's bucket; a rule that matches but is not violated does not
stop the scan, so the issue is bucketed iff some rule violates it
(first-violation-wins, not first-match-wins). -/
theorem evalBugRules_first_violation_wins (rules : List SLARule) (now : Instant)
    (bg : BucketGroup) (bug : Bug) :
    evalBugRules rules now bg bug =
      match rules.find? (fun r => r.Violates bug now) with
      | some r => bg.AddToBucket r.BucketName r.Severity bug
      | none => bg := by
  induction rules with
  | nil => rfl
  | cons r rest ih =>
    cases hm : r.Matches bug with
    | true =>
      cases hv : r.Violates bug now with
      | true => simp [evalBugRules, hm, hv, List.find?_cons_of_pos]
      | false => simp [evalBugRules, hm, hv, List.find?_cons_of_neg, ih]
    | false =>
      have hv : r.Violates bug now = false := by
        simp [SLARule.Violates, hm]
      simp [evalBugRules, hm, hv, List.find?_cons_of_neg, ih]

/-- Helper for C6: when no bucket carries the name, a new bucket with
the given severity is appended at the end. -/
theorem addToBucketList_absent (l : List Bucket) (nm : String) (sev : Int) (b : Bug)
    (h : ∀ bk ∈ l, bk.Name ≠ nm) :
    addToBucketList l nm sev b = l ++ [⟨nm, sev, [b]⟩] := by
  induction l with
  | nil => rfl
  | cons bk rest ih =>
    have hbk : bk.Name ≠ nm := h bk (List.mem_cons_self bk rest)
    simp only [addToBucketList, if_neg hbk, List.cons_append, List.cons.injEq, true_and]
    exact ih (fun bk2 hbk2 => h bk2 (List.mem_cons_of_mem bk hbk2))

/-- Helper for C6: the first bucket carrying the name receives the bug
appended at the end of its list, keeping its severity; all other
buckets are unchanged. -/
theorem addToBucketList_present (pre : List Bucket) (bk : Bucket) (post : List Bucket)
    (nm : String) (sev : Int) (b : Bug)
    (hpre : ∀ bk2 ∈ pre, bk2.Name ≠ nm) (hbk : bk.Name = nm) :
    addToBucketList (pre ++ bk :: post) nm sev b =
      pre ++ ⟨bk.Name, bk.Severity, bk.Bugs ++ [b]⟩ :: post := by
  induction pre with
  | nil => simp [addToBucketList, hbk]
  | cons bk2 rest ih =>
    have hbk2 : bk2.Name ≠ nm := hpre bk2 (List.mem_cons_self bk2 rest)
    simp only [List.cons_append, addToBucketList, if_neg hbk2, List.cons.injEq, true_and]
    exact ih (fun bk3 hbk3 => hpre bk3 (List.mem_cons_of_mem bk2 hbk3))

/-- C6: `AddToBucket` appends the issue to the end of the existing
bucket of that name when one exists (the first such bucket), leaving
that bucket's severity unchanged even when called with a different
severity; a new bucket carrying the given severity is created (at the
end) only when no bucket of that name exists. -/
theorem addToBucket_existing_or_new (bg : BucketGroup) (nm : String) (sev : Int) (b : Bug) :
    ((∀ bk ∈ bg.Buckets, bk.Name ≠ nm) →
      (bg.AddToBucket nm sev b).Buckets = bg.Buckets ++ [⟨nm, sev, [b]⟩]) ∧
    (∀ pre bk post, bg.Buckets = pre ++ bk :: post →
      (∀ bk2 ∈ pre, bk2.Name ≠ nm) → bk.Name = nm →
      (bg.AddToBucket nm sev b).Buckets =
        pre ++ ⟨bk.Name, bk.Severity, bk.Bugs ++ [b]⟩ :: post) := by
  constructor
  · intro h
    exact addToBucketList_absent bg.Buckets nm sev b h
  · intro pre bk post heq hpre hbk
    show addToBucketList bg.Buckets nm sev b = _
    rw [heq]
    exact addToBucketList_present pre bk post nm sev b hpre hbk

/-- Witness for C6: adding to a group without a bucket named B2 creates
⟨B2, 2, [bug]⟩ at the end; adding to a group whose bucket B1 has
severity 1, with severity argument 7, appends the bug to B1 and keeps
severity 1. -/
theorem addToBucket_existing_or_new_witness :
    ((BucketGroup.AddToBucket ⟨[⟨"B1", 1, []⟩]⟩ "B2" 2 bugAgeFive).Buckets =
      [⟨"B1", 1, []⟩] ++ [⟨"B2", 2, [bugAgeFive]⟩]) ∧
    ((BucketGroup.AddToBucket ⟨[⟨"B1", 1, []⟩]⟩ "B1" 7 bugAgeFive).Buckets =
      [] ++ ⟨"B1", 1, [] ++ [bugAgeFive]⟩ :: []) :=
  ⟨(addToBucket_existing_or_new ⟨[⟨"B1", 1, []⟩]⟩ "B2" 2 bugAgeFive).1 (by decide),
   (addToBucket_existing_or_new ⟨[⟨"B1", 1, []⟩]⟩ "B1" 7 bugAgeFive).2
     [] ⟨"B1", 1, []⟩ [] rfl (by simp) rfl⟩

/-- Helper for C2: the counting fold of `countUnresolvedAtDate`, with a
generalized accumulator, counts exactly the bugs satisfying the
specification's backlog predicate. -/
theorem countUnresolved_foldl_eq (date : Instant) :
    ∀ (bugs : List Bug) (n : Nat),
      bugs.foldl
        (fun count bug =>
          if date < bug.Created then
            count
          else if bug.Resolution == "" ||
              (match bug.ResolutionDate with
               | some d => decide (date < d)
               | none => false) then
            count + 1
          else
            count)
        n = n + specUnresolvedCount bugs date := by
  intro bugs
  induction bugs with
  | nil => intro n; simp [specUnresolvedCount]
  | cons b rest ih =>
    intro n
    rw [List.foldl_cons, ih]
    by_cases hc : date < b.Created
    · have hc' : ¬ (b.Created ≤ date) := not_le.mpr hc
      simp [specUnresolvedCount, List.filter_cons, hc, hc']
    · have hc' : b.Created ≤ date := not_lt.mp hc
      cases hq : (b.Resolution == "" ||
          (match b.ResolutionDate with
           | some d => decide (date < d)
           | none => false)) with
      | true =>
        simp [specUnresolvedCount, List.filter_cons, hc, hc', hq]
        omega
      | false =>
        simp [specUnresolvedCount, List.filter_cons, hc, hc', hq]

/-- Helper for C2: the source's `countUnresolvedAtDate` agrees with the
specification-side backlog count. -/
theorem countUnresolvedAtDate_eq_spec (bugs : List Bug) (date : Instant) :
    countUnresolvedAtDate bugs date = specUnresolvedCount bugs date := by
  rw [countUnresolvedAtDate, countUnresolved_foldl_eq date bugs 0, Nat.zero_add]

/-- Helper for C2: every entry produced by the per-month loop stores
the backlog count at its own month's final instant. -/
theorem buildMonthly_unresolved (bugs : List Bug) :
    ∀ (ks : List Int) (prev : Nat) (stat : MonthlyBugStats),
      stat ∈ buildMonthly bugs ks prev →
      stat.TotalUnresolved = countUnresolvedAtDate bugs (monthEnd stat.Month) := by
  intro ks
  induction ks with
  | nil => intro prev stat h; simp [buildMonthly] at h
  | cons k rest ih =>
    intro prev stat h
    simp only [buildMonthly] at h
    rcases List.mem_cons.mp h with h1 | h2
    · subst h1; rfl
    · exact ih _ stat h2

/-- C2: for every issue list and every month present in the computed
series, the `TotalUnresolved` reported for that month equals the number
of issues created on or before the month's final instant whose
resolution is empty or whose resolution timestamp is strictly after
that instant (so an issue resolved exactly at the final instant is
counted as resolved and excluded). -/
theorem analyze_backlog_reconstruction (a : Analyzer) (now : Instant) (bugs : List Bug)
    (i : Nat) (h : i < (a.Analyze now bugs).MonthlyData.length) :
    ((a.Analyze now bugs).MonthlyData.get ⟨i, h⟩).TotalUnresolved =
      specUnresolvedCount bugs
        (monthEnd (((a.Analyze now bugs).MonthlyData.get ⟨i, h⟩)).Month) := by
  have hmem : (a.Analyze now bugs).MonthlyData.get ⟨i, h⟩ ∈ buildMonthly bugs (monthKeys bugs) 0 :=
    List.get_mem _ _ h
  rw [← countUnresolvedAtDate_eq_spec]
  exact buildMonthly_unresolved bugs (monthKeys bugs) 0 _ hmem

/-- Witness for C2: on the concrete history `bugsBacklogW` (one bug
resolved exactly at the final instant of January 1970, one unresolved),
the first series entry's backlog equals the specification count. -/
theorem analyze_backlog_reconstruction_witness :
    0 < (analyzerW.Analyze 1000000 bugsBacklogW).MonthlyData.length ∧
    ((analyzerW.Analyze 1000000 bugsBacklogW).MonthlyData.get ⟨0, by decide⟩).TotalUnresolved =
      specUnresolvedCount bugsBacklogW
        (monthEnd
          (((analyzerW.Analyze 1000000 bugsBacklogW).MonthlyData.get ⟨0, by decide⟩)).Month) :=
  ⟨by decide, analyze_backlog_reconstruction analyzerW 1000000 bugsBacklogW 0 (by decide)⟩

/-- Helper for C8: the first entry produced by the per-month loop
computes its percent change and net change from the incoming
`previousCreatedCount`. -/
theorem buildMonthly_head (bugs : List Bug) :
    ∀ (ks : List Int) (prev : Nat) (h : 0 < (buildMonthly bugs ks prev).length),
      ((buildMonthly bugs ks prev).get ⟨0, h⟩).ChangePercent =
        (if 0 < prev then
          ((((buildMonthly bugs ks prev).get ⟨0, h⟩).TotalCreated : ℚ) - (prev : ℚ)) /
            (prev : ℚ) * 100
        else 0) ∧
      ((buildMonthly bugs ks prev).get ⟨0, h⟩).NetChange =
        (((buildMonthly bugs ks prev).get ⟨0, h⟩).TotalCreated : Int) - (prev : Int) := by
  intro ks prev h
  cases ks with
  | nil => simp [buildMonthly] at h
  | cons k rest => exact ⟨rfl, rfl⟩

/-- Helper for C8: each later entry produced by the per-month loop
computes its percent change from the previous entry's created count. -/
theorem buildMonthly_consec (bugs : List Bug) :
    ∀ (ks : List Int) (prev : Nat) (i : Nat)
      (h1 : i < (buildMonthly bugs ks prev).length)
      (h2 : i + 1 < (buildMonthly bugs ks prev).length),
      ((buildMonthly bugs ks prev).get ⟨i + 1, h2⟩).ChangePercent =
        (if 0 < ((buildMonthly bugs ks prev).get ⟨i, h1⟩).TotalCreated then
          ((((buildMonthly bugs ks prev).get ⟨i + 1, h2⟩).TotalCreated : ℚ) -
              (((buildMonthly bugs ks prev).get ⟨i, h1⟩).TotalCreated : ℚ)) /
            (((buildMonthly bugs ks prev).get ⟨i, h1⟩).TotalCreated : ℚ) * 100
        else 0) := by
  intro ks
  induction ks with
  | nil => intro prev i h1 h2; simp [buildMonthly] at h2
  | cons k rest ih =>
    intro prev i h1 h2
    cases i with
    | zero =>
      have hlen : 0 < (buildMonthly bugs rest ((bugsCreatedInMonth bugs k).length)).length := by
        simpa [buildMonthly] using h2
      exact (buildMonthly_head bugs rest ((bugsCreatedInMonth bugs k).length) hlen).1
    | succ j =>
      have hl1 : j < (buildMonthly bugs rest ((bugsCreatedInMonth bugs k).length)).length := by
        simpa [buildMonthly] using h1
      have hl2 : j + 1 < (buildMonthly bugs rest ((bugsCreatedInMonth bugs k).length)).length := by
        simpa [buildMonthly] using h2
      exact ih ((bugsCreatedInMonth bugs k).length) j hl1 hl2

/-- C8: in the computed series, a month's `ChangePercent` equals
`((created − previousCreated)/previousCreated)×100` when a previous
month exists in the series with nonzero created count, and is exactly 0
for the first month (no previous month) or when the previous created
count is 0; the first month's `NetChange` equals its created count. -/
theorem analyze_change_percent (a : Analyzer) (now : Instant) (bugs : List Bug) :
    (∀ h : 0 < (a.Analyze now bugs).MonthlyData.length,
      ((a.Analyze now bugs).MonthlyData.get ⟨0, h⟩).ChangePercent = 0 ∧
      ((a.Analyze now bugs).MonthlyData.get ⟨0, h⟩).NetChange =
        (((a.Analyze now bugs).MonthlyData.get ⟨0, h⟩).TotalCreated : Int)) ∧
    (∀ (i : Nat) (h : i + 1 < (a.Analyze now bugs).MonthlyData.length),
      ((a.Analyze now bugs).MonthlyData.get ⟨i + 1, h⟩).ChangePercent =
        (if 0 < ((a.Analyze now bugs).MonthlyData.get ⟨i, by omega⟩).TotalCreated then
          ((((a.Analyze now bugs).MonthlyData.get ⟨i + 1, h⟩).TotalCreated : ℚ) -
              (((a.Analyze now bugs).MonthlyData.get ⟨i, by omega⟩).TotalCreated : ℚ)) /
            (((a.Analyze now bugs).MonthlyData.get ⟨i, by omega⟩).TotalCreated : ℚ) * 100
        else 0)) := by
  constructor
  · intro h
    have hh := buildMonthly_head bugs (monthKeys bugs) 0 h
    simpa using hh
  · intro i h
    have hlen : (a.Analyze now bugs).MonthlyData.length =
        (buildMonthly bugs (monthKeys bugs) 0).length := rfl
    exact buildMonthly_consec bugs (monthKeys bugs) 0 i (by omega) (by omega)

/-- Witness for C8: on the concrete two-month history
`bugsTwoMonthsW` (1 bug in January 1970, 2 in February 1970), the first
entry has zero percent change and net change equal to its created
count, and the second entry's percent change is computed from the first
entry's created count. -/
theorem analyze_change_percent_witness :
    (((analyzerW.Analyze 5000000 bugsTwoMonthsW).MonthlyData.get ⟨0, by decide⟩).ChangePercent = 0 ∧
      ((analyzerW.Analyze 5000000 bugsTwoMonthsW).MonthlyData.get ⟨0, by decide⟩).NetChange =
        (((analyzerW.Analyze 5000000 bugsTwoMonthsW).MonthlyData.get ⟨0, by decide⟩).TotalCreated : Int)) ∧
    (((analyzerW.Analyze 5000000 bugsTwoMonthsW).MonthlyData.get ⟨1, by decide⟩).ChangePercent =
      (if 0 < ((analyzerW.Analyze 5000000 bugsTwoMonthsW).MonthlyData.get ⟨0, by decide⟩).TotalCreated then
        ((((analyzerW.Analyze 5000000 bugsTwoMonthsW).MonthlyData.get ⟨1, by decide⟩).TotalCreated : ℚ) -
            (((analyzerW.Analyze 5000000 bugsTwoMonthsW).MonthlyData.get ⟨0, by decide⟩).TotalCreated : ℚ)) /
          (((analyzerW.Analyze 5000000 bugsTwoMonthsW).MonthlyData.get ⟨0, by decide⟩).TotalCreated : ℚ) * 100
      else 0)) :=
  ⟨(analyze_change_percent analyzerW 5000000 bugsTwoMonthsW).1 (by decide),
   (analyze_change_percent analyzerW 5000000 bugsTwoMonthsW).2 0 (by decide)⟩

/-- C7: the analyzer looks up the current calendar month and the same
calendar month one year prior (month key − 12) in the computed series;
when both are present, `GoalTarget` equals
`round(lastYearSameMonth.TotalCreated × (1 − reductionGoal/100))` and
`OnTrack` is true iff `currentMonth.TotalCreated ≤ GoalTarget`; when
either reference month is absent, `GoalTarget` is 0 and `OnTrack` is
false.  The final conjunct checks the spec's example: lastYear = 100
and goal = 20% give target 80. -/
theorem analyze_goal_tracking (a : Analyzer) (now : Instant) (bugs : List Bug) :
    ((a.Analyze now bugs).CurrentMonth =
      lastMonthMatch (a.Analyze now bugs).MonthlyData (monthKeyOfInstant now)) ∧
    ((a.Analyze now bugs).LastYearSameMonth =
      lastMonthMatch (a.Analyze now bugs).MonthlyData (monthKeyOfInstant now - 12)) ∧
    ((a.Analyze now bugs).GoalTarget =
      (match (a.Analyze now bugs).LastYearSameMonth, (a.Analyze now bugs).CurrentMonth with
       | some ly, some _ => goRound ((ly.TotalCreated : ℚ) * (1 - a.reductionGoal / 100))
       | _, _ => 0)) ∧
    ((a.Analyze now bugs).OnTrack =
      (match (a.Analyze now bugs).LastYearSameMonth, (a.Analyze now bugs).CurrentMonth with
       | some _, some cm => decide ((cm.TotalCreated : Int) ≤ (a.Analyze now bugs).GoalTarget)
       | _, _ => false)) ∧
    calculateGoalTarget 100 20 = 80 := by
  refine ⟨rfl, rfl, ?_, ?_, ?_⟩
  · show (match lastMonthMatch (buildMonthly bugs (monthKeys bugs) 0) (monthKeyOfInstant now - 12),
            lastMonthMatch (buildMonthly bugs (monthKeys bugs) 0) (monthKeyOfInstant now) with
          | some ly, some _ => calculateGoalTarget ly.TotalCreated a.reductionGoal
          | _, _ => 0) = _
    cases hly : lastMonthMatch (buildMonthly bugs (monthKeys bugs) 0) (monthKeyOfInstant now - 12) with
    | none =>
      cases hcm : lastMonthMatch (buildMonthly bugs (monthKeys bugs) 0) (monthKeyOfInstant now) <;>
        simp [Analyzer.Analyze, hly, hcm]
    | some ly =>
      cases hcm : lastMonthMatch (buildMonthly bugs (monthKeys bugs) 0) (monthKeyOfInstant now) with
      | none => simp [Analyzer.Analyze, hly, hcm]
      | some cm =>
        simp only [Analyzer.Analyze, hly, hcm]
        show calculateGoalTarget ly.TotalCreated a.reductionGoal = _
        unfold calculateGoalTarget
        ring_nf
  · show (match lastMonthMatch (buildMonthly bugs (monthKeys bugs) 0) (monthKeyOfInstant now - 12),
            lastMonthMatch (buildMonthly bugs (monthKeys bugs) 0) (monthKeyOfInstant now) with
          | some _, some cm =>
            decide ((cm.TotalCreated : Int) ≤
              (match lastMonthMatch (buildMonthly bugs (monthKeys bugs) 0) (monthKeyOfInstant now - 12),
                lastMonthMatch (buildMonthly bugs (monthKeys bugs) 0) (monthKeyOfInstant now) with
               | some ly, some _ => calculateGoalTarget ly.TotalCreated a.reductionGoal
               | _, _ => 0))
          | _, _ => false) = _
    cases hly : lastMonthMatch (buildMonthly bugs (monthKeys bugs) 0) (monthKeyOfInstant now - 12) <;>
      cases hcm : lastMonthMatch (buildMonthly bugs (monthKeys bugs) 0) (monthKeyOfInstant now) <;>
      simp [Analyzer.Analyze, hly, hcm]
  · show goRound ((100 : ℚ) - 100 * (20 / 100)) = 80
    norm_num [goRound]

/-- Helper for C5: one bounded bubble pass permutes the list. -/
theorem bubbleStep_perm (k : Nat) : ∀ l, List.Perm (bubbleStep k l) l := by
  induction k with
  | zero => intro l; exact List.Perm.refl l
  | succ k ih =>
    intro l
    rcases l with _ | ⟨b1, l1⟩
    · exact List.Perm.refl _
    rcases l1 with _ | ⟨b2, rest⟩
    · exact List.Perm.refl _
    simp only [bubbleStep]
    by_cases hlt : b2.Severity < b1.Severity
    · rw [if_pos hlt]
      exact ((ih (b1 :: rest)).cons b2).trans (List.Perm.swap b1 b2 rest)
    · rw [if_neg hlt]
      exact (ih (b2 :: rest)).cons b1

/-- Helper for C5: a bubble pass only swaps adjacent buckets of
strictly decreasing severity, so the subsequence of buckets at any
fixed severity is unchanged (stability of one pass). -/
theorem bubbleStep_filter (k : Nat) (s : Int) :
    ∀ l, (bubbleStep k l).filter (fun bk => bk.Severity == s) =
      l.filter (fun bk => bk.Severity == s) := by
  induction k with
  | zero => intro l; rfl
  | succ k ih =>
    intro l
    rcases l with _ | ⟨b1, l1⟩
    · rfl
    rcases l1 with _ | ⟨b2, rest⟩
    · rfl
    simp only [bubbleStep]
    by_cases hlt : b2.Severity < b1.Severity
    · rw [if_pos hlt]
      by_cases h1 : b1.Severity = s
      · have h2 : ¬ b2.Severity = s := by omega
        simp [List.filter_cons, h1, h2, ih (b1 :: rest)]
      · by_cases h2 : b2.Severity = s
        · simp [List.filter_cons, h1, h2, ih (b1 :: rest)]
        · simp [List.filter_cons, h1, h2, ih (b1 :: rest)]
    · rw [if_neg hlt]
      simp [List.filter_cons, ih (b2 :: rest)]

/-- Helper for C5: a pass of `k` compare-and-swaps only touches the
first `k + 1` elements. -/
theorem bubbleStep_append (k : Nat) :
    ∀ (l1 l2 : List Bucket), k + 1 ≤ l1.length →
      bubbleStep k (l1 ++ l2) = bubbleStep k l1 ++ l2 := by
  induction k with
  | zero => intro l1 l2 _; rfl
  | succ k ih =>
    intro l1 l2 h
    rcases l1 with _ | ⟨b1, l1x⟩
    · simp at h
    rcases l1x with _ | ⟨b2, rest⟩
    · simp at h
    simp only [List.cons_append, bubbleStep]
    by_cases hlt : b2.Severity < b1.Severity
    · rw [if_pos hlt, if_pos hlt, List.cons_append]
      have hi := ih (b1 :: rest) l2 (by simp at h ⊢; omega)
      exact congrArg (fun t => b2 :: t) hi
    · rw [if_neg hlt, if_neg hlt, List.cons_append]
      have hi := ih (b2 :: rest) l2 (by simp at h ⊢; omega)
      exact congrArg (fun t => b1 :: t) hi

/-- Helper for C5: a full pass over a list of length `k + 1` moves a
maximal-severity bucket to the last position. -/
theorem bubbleStep_max (k : Nat) :
    ∀ l : List Bucket, l.length = k + 1 →
      ∃ init lst, bubbleStep k l = init ++ [lst] ∧
        ∀ x ∈ init, x.Severity ≤ lst.Severity := by
  induction k with
  | zero =>
    intro l h
    rcases l with _ | ⟨b, rest⟩
    · simp at h
    rcases rest with _ | ⟨c, restx⟩
    · exact ⟨[], b, rfl, by simp⟩
    · simp at h
  | succ k ih =>
    intro l h
    rcases l with _ | ⟨b1, l1⟩
    · simp at h
    rcases l1 with _ | ⟨b2, rest⟩
    · simp at h
    simp only [bubbleStep]
    by_cases hlt : b2.Severity < b1.Severity
    · rw [if_pos hlt]
      obtain ⟨init, lst, heq, hle⟩ := ih (b1 :: rest) (by simp at h ⊢; omega)
      refine ⟨b2 :: init, lst, by rw [heq]; rfl, ?_⟩
      intro x hx
      rcases List.mem_cons.mp hx with hx | hx
      · subst hx
        have hb1 : b1 ∈ init ++ [lst] := by
          rw [← heq]
          exact ((bubbleStep_perm k (b1 :: rest)).mem_iff).mpr (List.mem_cons_self _ _)
        have hb1s : b1.Severity ≤ lst.Severity := by
          rcases List.mem_append.mp hb1 with h1 | h1
          · exact hle b1 h1
          · simp only [List.mem_singleton] at h1
            simp [h1]
        omega
      · exact hle x hx
    · rw [if_neg hlt]
      obtain ⟨init, lst, heq, hle⟩ := ih (b2 :: rest) (by simp at h ⊢; omega)
      refine ⟨b1 :: init, lst, by rw [heq]; rfl, ?_⟩
      intro x hx
      rcases List.mem_cons.mp hx with hx | hx
      · subst hx
        have hb2 : b2 ∈ init ++ [lst] := by
          rw [← heq]
          exact ((bubbleStep_perm k (b2 :: rest)).mem_iff).mpr (List.mem_cons_self _ _)
        have hb2s : b2.Severity ≤ lst.Severity := by
          rcases List.mem_append.mp hb2 with h1 | h1
          · exact hle b2 h1
          · simp only [List.mem_singleton] at h1
            simp [h1]
        omega
      · exact hle x hx

/-- Helper for C5: the whole bubble sort permutes the bucket list. -/
theorem bubbleAux_perm (k : Nat) : ∀ l, List.Perm (bubbleAux k l) l := by
  induction k with
  | zero => intro l; exact List.Perm.refl l
  | succ k ih =>
    intro l
    exact (ih (bubbleStep (k + 1) l)).trans (bubbleStep_perm (k + 1) l)

/-- Helper for C5: the whole bubble sort preserves the subsequence of
buckets at any fixed severity (stability). -/
theorem bubbleAux_filter (k : Nat) (s : Int) :
    ∀ l, (bubbleAux k l).filter (fun bk => bk.Severity == s) =
      l.filter (fun bk => bk.Severity == s) := by
  induction k with
  | zero => intro l; rfl
  | succ k ih =>
    intro l
    exact (ih (bubbleStep (k + 1) l)).trans (bubbleStep_filter (k + 1) s l)

/-- Helper for C5: the bubble sort invariant — when the suffix beyond
the first `k + 1` elements is sorted and dominates the prefix, the
remaining passes sort the whole list. -/
theorem bubbleAux_sorted (k : Nat) :
    ∀ (pre suf : List Bucket), pre.length = k + 1 →
      List.Sorted (fun x y : Bucket => x.Severity ≤ y.Severity) suf →
      (∀ x ∈ pre, ∀ y ∈ suf, x.Severity ≤ y.Severity) →
      List.Sorted (fun x y : Bucket => x.Severity ≤ y.Severity) (bubbleAux k (pre ++ suf)) := by
  induction k with
  | zero =>
    intro pre suf hlen hs hd
    rcases pre with _ | ⟨b, rest⟩
    · simp at hlen
    rcases rest with _ | ⟨c, restx⟩
    · show List.Sorted _ (b :: suf)
      exact List.sorted_cons.mpr ⟨fun y hy => hd b (by simp) y hy, hs⟩
    · simp at hlen
  | succ k ih =>
    intro pre suf hlen hs hd
    show List.Sorted _ (bubbleAux k (bubbleStep (k + 1) (pre ++ suf)))
    rw [bubbleStep_append (k + 1) pre suf (by omega)]
    obtain ⟨init, lst, heq, hle⟩ := bubbleStep_max (k + 1) pre hlen
    rw [heq, List.append_assoc]
    have hinit_len : init.length = k + 1 := by
      have hp := (bubbleStep_perm (k + 1) pre).length_eq
      rw [heq] at hp
      simp at hp
      omega
    have hlst_pre : lst ∈ pre := by
      have hmem : lst ∈ init ++ [lst] := by simp
      rw [← heq] at hmem
      exact ((bubbleStep_perm (k + 1) pre).mem_iff).mp hmem
    apply ih init (lst :: suf) hinit_len
    · refine List.sorted_cons.mpr ⟨?_, hs⟩
      intro y hy
      exact hd lst hlst_pre y hy
    · intro x hx y hy
      have hxpre : x ∈ pre := by
        have hmem : x ∈ init ++ [lst] := List.mem_append_left _ hx
        rw [← heq] at hmem
        exact ((bubbleStep_perm (k + 1) pre).mem_iff).mp hmem
      rcases List.mem_cons.mp hy with hy | hy
      · rw [hy]
        exact hle x hx
      · exact hd x hxpre y hy

/-- C5: `Sort` reorders the buckets into non-decreasing severity order,
is a permutation of the input, and any two buckets with equal severity
keep their relative order: for each severity the subsequence of buckets
at that severity is unchanged — exactly the result of a stable sort by
the integer severity key. -/
theorem sort_stable_by_severity (bg : BucketGroup) :
    List.Sorted (fun x y : Bucket => x.Severity ≤ y.Severity) (bg.Sort).Buckets ∧
    List.Perm (bg.Sort).Buckets bg.Buckets ∧
    ∀ s : Int, (bg.Sort).Buckets.filter (fun bk => bk.Severity == s) =
      bg.Buckets.filter (fun bk => bk.Severity == s) := by
  refine ⟨?_, bubbleAux_perm _ _, fun s => bubbleAux_filter _ s _⟩
  show List.Sorted _ (bubbleAux (bg.Buckets.length - 1) bg.Buckets)
  rcases hb : bg.Buckets with _ | ⟨b, rest⟩
  · exact List.sorted_nil
  · have hlen : (b :: rest).length - 1 = rest.length := by simp
    rw [hlen]
    have hmain := bubbleAux_sorted rest.length (b :: rest) [] (by simp) List.sorted_nil
      (by intro x hx y hy; simp at hy)
    simpa using hmain

/-- Helper for C3: `AddToBucket` adds exactly one occurrence of the
added bug (and no occurrence of any other bug) to the group. -/
theorem addToBucketList_count (b : Bug) (l : List Bucket) (nm : String) (sev : Int) (c : Bug) :
    ((addToBucketList l nm sev c).map (fun bk => bk.Bugs.count b)).sum =
      (l.map (fun bk => bk.Bugs.count b)).sum + [c].count b := by
  induction l with
  | nil => simp [addToBucketList]
  | cons bk rest ih =>
    simp only [addToBucketList]
    by_cases hn : bk.Name = nm
    · rw [if_pos hn]
      simp [List.count_append]
      omega
    · rw [if_neg hn]
      simp only [List.map_cons, List.sum_cons, ih]
      omega

/-- Helper for C3: one rule scan adds the scanned bug to at most one
bucket, once. -/
theorem evalBugRules_count (b : Bug) (rules : List SLARule) (now : Instant)
    (bg : BucketGroup) (c : Bug) :
    countBugInGroup b (evalBugRules rules now bg c) ≤ countBugInGroup b bg + [c].count b := by
  induction rules with
  | nil => simp [evalBugRules]
  | cons r rest ih =>
    simp only [evalBugRules]
    by_cases hm : r.Matches c = true
    · rw [if_pos hm]
      by_cases hv : r.Violates c now = true
      · rw [if_pos hv]
        exact le_of_eq (addToBucketList_count b bg.Buckets r.BucketName r.Severity c)
      · rw [if_neg hv]
        exact ih
    · rw [if_neg hm]
      exact ih

/-- Helper for C3: folding the rule scan over the bug list adds each
bug at most as many times as it occurs in the input. -/
theorem evaluate_fold_count (b : Bug) (rules : List SLARule) (now : Instant) :
    ∀ (bugs : List Bug) (bg : BucketGroup),
      countBugInGroup b (bugs.foldl (fun g bug => evalBugRules rules now g bug) bg) ≤
        countBugInGroup b bg + bugs.count b := by
  intro bugs
  induction bugs with
  | nil => intro bg; simp
  | cons c rest ih =>
    intro bg
    rw [List.foldl_cons]
    have h1 := ih (evalBugRules rules now bg c)
    have h2 := evalBugRules_count b rules now bg c
    have h3 : (c :: rest).count b = rest.count b + [c].count b := by
      simp [List.count_cons]
    omega

/-- Helper for C3: sorting the buckets does not change how often a bug
occurs in the group. -/
theorem countBugInGroup_sort (b : Bug) (bg : BucketGroup) :
    countBugInGroup b bg.Sort = countBugInGroup b bg :=
  List.Perm.sum_eq ((bubbleAux_perm _ _).map _)

/-- C3: for every rule list and duplicate-free issue list, `Evaluate`
adds each issue to at most one bucket of the returned group — the
issue's total number of occurrences across all buckets is at most 1, so
no issue appears in two buckets or twice in one bucket. -/
theorem evaluate_each_bug_at_most_one_bucket (rules : List SLARule) (now : Instant)
    (bugs : List Bug) (b : Bug) (hnd : bugs.Nodup) :
    countBugInGroup b (Evaluate rules now bugs) ≤ 1 := by
  have h1 : countBugInGroup b (Evaluate rules now bugs) =
      countBugInGroup b (bugs.foldl (fun g bug => evalBugRules rules now g bug) ⟨[]⟩) :=
    countBugInGroup_sort b _
  have h2 := evaluate_fold_count b rules now bugs ⟨[]⟩
  have h3 : countBugInGroup b (⟨[]⟩ : BucketGroup) = 0 := rfl
  have h4 : bugs.count b ≤ 1 := List.nodup_iff_count_le_one.mp hnd b
  omega

/-- Witness for C3: the counterexample scenario's evaluation places the
(duplicate-free) bug in at most one bucket. -/
theorem evaluate_each_bug_at_most_one_bucket_witness :
    ([bugAgeFive] : List Bug).Nodup ∧
      countBugInGroup bugAgeFive (Evaluate [ruleCatchAll10, ruleCatchAll1] 432000 [bugAgeFive]) ≤ 1 :=
  ⟨List.nodup_singleton _,
   evaluate_each_bug_at_most_one_bucket [ruleCatchAll10, ruleCatchAll1] 432000 [bugAgeFive]
     bugAgeFive (List.nodup_singleton _)⟩

/-- Helper for C9: when the configured pattern is non-empty and fails
to compile, the name filter is disabled. -/
theorem mkNameFilter_invalid (re : RegexpLib) (bw pattern : String)
    (hp : pattern ≠ "") (hc : re.compile pattern = none) :
    mkNameFilter re bw pattern = none := by
  simp [mkNameFilter, hp, hc]

/-- Helper for C9: collecting the first components of an association
list with a fold. -/
theorem foldl_collect_fst : ∀ (m : List (String × String)) (acc : List String),
    m.foldl (fun acc p => acc ++ [p.1]) acc = acc ++ m.map Prod.fst := by
  intro m
  induction m with
  | nil => intro acc; simp
  | cons p rest ih => intro acc; rw [List.foldl_cons, ih]; simp

/-- Helper for C9: with the filter disabled,
`ExtractAndFilterSprints` returns every key of the sprint map. -/
theorem extractAndFilterSprints_nofilter (re : RegexpLib) (bugs : List Bug)
    (bw pattern : String) (h : mkNameFilter re bw pattern = none) :
    ExtractAndFilterSprints re bugs bw pattern = (buildSprintMap bugs).map Prod.fst := by
  unfold ExtractAndFilterSprints
  rw [h]
  exact foldl_collect_fst (buildSprintMap bugs) []

/-- Helper for C9: inserting one bug into the sprint map adds its
non-empty sprint id to the key set and keeps all existing keys. -/
theorem sprintMapInsert_keys_mem (m : List (String × String)) (b : Bug) (id : String) :
    id ∈ (sprintMapInsert m b).map Prod.fst ↔
      (id ∈ m.map Prod.fst ∨ (b.SprintID ≠ "" ∧ id = b.SprintID)) := by
  unfold sprintMapInsert
  by_cases h1 : b.SprintID ≠ ""
  · rw [if_pos h1]
    by_cases h2 : m.any (fun p => p.1 == b.SprintID) = true
    · rw [if_pos h2]
      have hkeys : ((m.map (fun p => if p.1 == b.SprintID then (p.1, b.SprintName) else p)).map
          Prod.fst) = m.map Prod.fst := by
        rw [List.map_map]
        apply List.map_congr_left
        intro p _
        by_cases hp : p.1 = b.SprintID
        · simp [hp]
        · simp [hp]
      rw [hkeys]
      constructor
      · exact Or.inl
      · rintro (h | ⟨hne, heq⟩)
        · exact h
        · subst heq
          rcases List.any_eq_true.mp h2 with ⟨p, hp, hpe⟩
          exact List.mem_map.mpr ⟨p, hp, beq_iff_eq.mp hpe⟩
    · rw [if_neg h2]
      rw [List.map_append]
      simp only [List.mem_append, List.map_cons, List.map_nil, List.mem_singleton]
      constructor
      · rintro (h | h)
        · exact Or.inl h
        · exact Or.inr ⟨h1, h⟩
      · rintro (h | ⟨_, h⟩)
        · exact Or.inl h
        · exact Or.inr h
  · rw [if_neg h1]
    simp only [not_not] at h1
    simp [h1]

/-- Helper for C9: the keys of the sprint map are exactly the non-empty
sprint ids occurring in the bug list. -/
theorem buildSprintMap_fold_mem : ∀ (bugs : List Bug) (m : List (String × String)) (id : String),
    (id ∈ ((bugs.foldl sprintMapInsert m).map Prod.fst)) ↔
      (id ∈ m.map Prod.fst ∨ (id ≠ "" ∧ ∃ b ∈ bugs, b.SprintID = id)) := by
  intro bugs
  induction bugs with
  | nil => intro m id; simp
  | cons b rest ih =>
    intro m id
    rw [List.foldl_cons, ih, sprintMapInsert_keys_mem]
    constructor
    · rintro ((h | ⟨hne, heq⟩) | ⟨hne, c, hc, hce⟩)
      · exact Or.inl h
      · exact Or.inr ⟨heq ▸ hne, b, List.mem_cons_self _ _, heq.symm⟩
      · exact Or.inr ⟨hne, c, List.mem_cons_of_mem _ hc, hce⟩
    · rintro (h | ⟨hne, c, hc, hce⟩)
      · exact Or.inl (Or.inl h)
      · rcases List.mem_cons.mp hc with hc | hc
        · subst hc
          exact Or.inl (Or.inr ⟨hce ▸ hne, hce.symm⟩)
        · exact Or.inr ⟨hne, c, hc, hce⟩

/-- Helper for C9 and C10: every issue passing the sprint filter gives
rise to a stats entry for its sprint id. -/
theorem calculateSprintStats_covers (a : Analyzer) (re : RegexpLib) (issues : List Bug)
    (bw pattern : String) (b : Bug) (hb : b ∈ issues)
    (hpass : sprintPass (mkNameFilter re bw pattern) b = true) :
    ∃ s ∈ a.CalculateSprintStats re issues bw pattern, s.SprintID = b.SprintID := by
  have hkey : b.SprintID ∈ sprintKeys (mkNameFilter re bw pattern) issues := by
    apply List.mem_dedup.mpr
    exact List.mem_map.mpr ⟨b, List.mem_filter.mpr ⟨hb, hpass⟩, rfl⟩
  refine ⟨mkSprintStat b.SprintID
      (sprintNameFor (mkNameFilter re bw pattern) issues b.SprintID)
      (sprintGroup (mkNameFilter re bw pattern) issues b.SprintID), ?_, rfl⟩
  apply ((List.perm_insertionSort _ _).mem_iff).mpr
  exact List.mem_map.mpr ⟨b.SprintID, hkey, rfl⟩

/-- C9: when the configured sprint-name pattern fails to compile,
`ExtractAndFilterSprints` retains exactly the non-empty sprint ids
(no sprint is filtered out), and `CalculateSprintStats` still produces
a stats entry for every issue with a non-empty sprint id; both
functions return normally (they are total and have no error result). -/
theorem sprint_filter_invalid_pattern_falls_back (re : RegexpLib) (a : Analyzer)
    (bugs issues : List Bug) (bw pattern : String)
    (hp : pattern ≠ "") (hc : re.compile pattern = none) :
    (∀ b ∈ bugs, b.SprintID ≠ "" → b.SprintID ∈ ExtractAndFilterSprints re bugs bw pattern) ∧
    (∀ id ∈ ExtractAndFilterSprints re bugs bw pattern, id ≠ "" ∧ ∃ b ∈ bugs, b.SprintID = id) ∧
    (∀ b ∈ issues, b.SprintID ≠ "" →
      ∃ s ∈ a.CalculateSprintStats re issues bw pattern, s.SprintID = b.SprintID) := by
  have hnone := mkNameFilter_invalid re bw pattern hp hc
  have hext := extractAndFilterSprints_nofilter re bugs bw pattern hnone
  refine ⟨?_, ?_, ?_⟩
  · intro b hb hid
    rw [hext]
    exact (buildSprintMap_fold_mem bugs [] b.SprintID).mpr (Or.inr ⟨hid, b, hb, rfl⟩)
  · intro id hid
    rw [hext] at hid
    rcases (buildSprintMap_fold_mem bugs [] id).mp hid with h | h
    · simp at h
    · exact ⟨h.1, h.2⟩
  · intro b hb hid
    exact calculateSprintStats_covers a re issues bw pattern b hb
      (by simp [sprintPass, hnone, hid])

/-- Witness for C9: with an oracle on which the pattern "[" fails to
compile, the concrete sprint data is fully retained. -/
theorem sprint_filter_invalid_pattern_falls_back_witness :
    ("[" : String) ≠ "" ∧ reNone.compile "[" = none ∧
    ((∀ b ∈ issuesSprintW, b.SprintID ≠ "" →
        b.SprintID ∈ ExtractAndFilterSprints reNone issuesSprintW "" "[") ∧
      (∀ id ∈ ExtractAndFilterSprints reNone issuesSprintW "" "[",
        id ≠ "" ∧ ∃ b ∈ issuesSprintW, b.SprintID = id) ∧
      (∀ b ∈ issuesSprintW, b.SprintID ≠ "" →
        ∃ s ∈ analyzerW.CalculateSprintStats reNone issuesSprintW "" "[",
          s.SprintID = b.SprintID)) :=
  ⟨by decide, rfl,
   sprint_filter_invalid_pattern_falls_back reNone analyzerW issuesSprintW issuesSprintW "" "["
     (by decide) rfl⟩

/-- Helper for C10: the accumulation loop of `CalculateSprintStats`
computes, over any starting accumulator, the count of issues whose type
is exactly "Bug", the count of all other issues, the story-point sum of
the Bug-typed issues, and the story-point sum of all issues. -/
theorem sprintCounts_foldl_spec : ∀ (issues : List Bug) (a1 a2 : Nat) (q1 q2 : ℚ),
    issues.foldl sprintCountStep (a1, a2, q1, q2) =
      (a1 + issues.countP (fun b => b.IssueType == "Bug"),
       a2 + issues.countP (fun b => !(b.IssueType == "Bug")),
       q1 + ((issues.filter (fun b => b.IssueType == "Bug")).map (fun b => b.StoryPoints)).sum,
       q2 + (issues.map (fun b => b.StoryPoints)).sum) := by
  intro issues
  induction issues with
  | nil => intro a1 a2 q1 q2; simp
  | cons b rest ih =>
    intro a1 a2 q1 q2
    rw [List.foldl_cons]
    by_cases hb : (b.IssueType == "Bug") = true
    · rw [show sprintCountStep (a1, a2, q1, q2) b =
          (a1 + 1, a2, q1 + b.StoryPoints, q2 + b.StoryPoints) by
        simp [sprintCountStep, hb]]
      rw [ih]
      simp [List.countP_cons, List.filter_cons, hb]
      refine ⟨by omega, by ring, by ring⟩
    · rw [show sprintCountStep (a1, a2, q1, q2) b =
          (a1, a2 + 1, q1, q2 + b.StoryPoints) by
        simp [sprintCountStep, hb]]
      rw [ih]
      simp [List.countP_cons, List.filter_cons, hb]
      refine ⟨by omega, by ring⟩

/-- C10: every entry of `CalculateSprintStats` counts an issue toward
`BugCount` (and its points toward `BugStoryPoints`) iff its `IssueType`
equals the exact string "Bug"; every other issue of the sprint counts
toward `OtherCount`; `TotalCount = BugCount + OtherCount`; and
`TotalStoryPoints` sums the story points of all the sprint's issues. -/
theorem calculateSprintStats_fields (a : Analyzer) (re : RegexpLib) (issues : List Bug)
    (bw pattern : String) (s : SprintStats)
    (hs : s ∈ a.CalculateSprintStats re issues bw pattern) :
    s.BugCount = ((sprintGroup (mkNameFilter re bw pattern) issues s.SprintID).countP
        (fun b => b.IssueType == "Bug")) ∧
    s.OtherCount = ((sprintGroup (mkNameFilter re bw pattern) issues s.SprintID).countP
        (fun b => !(b.IssueType == "Bug"))) ∧
    s.TotalCount = s.BugCount + s.OtherCount ∧
    s.BugStoryPoints = (((sprintGroup (mkNameFilter re bw pattern) issues s.SprintID).filter
        (fun b => b.IssueType == "Bug")).map (fun b => b.StoryPoints)).sum ∧
    s.TotalStoryPoints = ((sprintGroup (mkNameFilter re bw pattern) issues s.SprintID).map
        (fun b => b.StoryPoints)).sum := by
  have hs' : s ∈ (sprintKeys (mkNameFilter re bw pattern) issues).map
      (fun id => mkSprintStat id (sprintNameFor (mkNameFilter re bw pattern) issues id)
        (sprintGroup (mkNameFilter re bw pattern) issues id)) :=
    ((List.perm_insertionSort _ _).mem_iff).mp hs
  rcases List.mem_map.mp hs' with ⟨id, _, heq⟩
  subst heq
  have hcounts := sprintCounts_foldl_spec
    (sprintGroup (mkNameFilter re bw pattern) issues id) 0 0 0 0
  have hc : sprintCounts (sprintGroup (mkNameFilter re bw pattern) issues id) =
      ((sprintGroup (mkNameFilter re bw pattern) issues id).countP (fun b => b.IssueType == "Bug"),
       (sprintGroup (mkNameFilter re bw pattern) issues id).countP (fun b => !(b.IssueType == "Bug")),
       (((sprintGroup (mkNameFilter re bw pattern) issues id).filter
         (fun b => b.IssueType == "Bug")).map (fun b => b.StoryPoints)).sum,
       ((sprintGroup (mkNameFilter re bw pattern) issues id).map (fun b => b.StoryPoints)).sum) := by
    rw [sprintCounts, hcounts]
    simp
  refine ⟨?_, ?_, rfl, ?_, ?_⟩
  · show (sprintCounts (sprintGroup (mkNameFilter re bw pattern) issues id)).1 = _
    rw [hc]
    rfl
  · show (sprintCounts (sprintGroup (mkNameFilter re bw pattern) issues id)).2.1 = _
    rw [hc]
    rfl
  · show (sprintCounts (sprintGroup (mkNameFilter re bw pattern) issues id)).2.2.1 = _
    rw [hc]
    rfl
  · show (sprintCounts (sprintGroup (mkNameFilter re bw pattern) issues id)).2.2.2 = _
    rw [hc]
    rfl

/-- Witness for C10: the single-sprint concrete issue list (one Bug
worth 3 points, one Story worth 1 point) yields an entry whose counts
and sums satisfy the claim. -/
theorem calculateSprintStats_fields_witness :
    (mkSprintStat "10" (sprintNameFor (mkNameFilter reNone "" "") issuesSprintW "10")
        (sprintGroup (mkNameFilter reNone "" "") issuesSprintW "10")) ∈
      analyzerW.CalculateSprintStats reNone issuesSprintW "" "" ∧
    ((mkSprintStat "10" (sprintNameFor (mkNameFilter reNone "" "") issuesSprintW "10")
        (sprintGroup (mkNameFilter reNone "" "") issuesSprintW "10")).BugCount =
      ((sprintGroup (mkNameFilter reNone "" "") issuesSprintW
        (mkSprintStat "10" (sprintNameFor (mkNameFilter reNone "" "") issuesSprintW "10")
          (sprintGroup (mkNameFilter reNone "" "") issuesSprintW "10")).SprintID).countP
        (fun b => b.IssueType == "Bug"))) :=
  have hm : (mkSprintStat "10" (sprintNameFor (mkNameFilter reNone "" "") issuesSprintW "10")
      (sprintGroup (mkNameFilter reNone "" "") issuesSprintW "10")) ∈
      analyzerW.CalculateSprintStats reNone issuesSprintW "" "" :=
    List.mem_singleton.mpr rfl
  ⟨hm, (calculateSprintStats_fields analyzerW reNone issuesSprintW "" "" _ hm).1⟩

end BugButler
